import Mathlib

/-!
Verification development for the sql-query-parser repository.

The metadata analyzer of `src/lib.rs` is embedded shallowly: pest parse
trees become the inductive `Pair` type (production tag, matched source
text, ordered children), `HashSet<String>` fields become `Finset String`,
and the alias `HashMap<String, String>` becomes an association list with
overwrite-on-insert semantics.  The analyzer functions below mirror the
Rust functions of the same names; the grammar file and the pest engine are
not part of `src/`, so parse trees for concrete inputs are modelled from
the specification's grammar and parsing is abstracted as a parameter.
-/

set_option maxHeartbeats 1000000

/-- Production tags of the grammar (the variants of the generated `Rule`
enum that the analyzer dispatches on, plus the tags appearing in the parse
trees used here; further variants would all take the default arms). -/
inductive Rule : Type where
  | sql
  | statement
  | compound_select
  | union_clause
  | select_stmt
  | insert_stmt
  | update_stmt
  | delete_stmt
  | projection
  | projection_list
  | projection_item
  | from_item
  | table_factor
  | join_clause
  | where_clause
  | group_by_clause
  | having_clause
  | order_by_clause
  | limit_clause
  | order_list
  | order_item
  | column_list
  | value_rows
  | value_row
  | set_list
  | set_item
  | identifier_list
  | expr_list
  | expr
  | or_expr
  | and_expr
  | not_expr
  | comparison
  | comparison_suffix
  | comp_op
  | in_rhs
  | addition
  | multiplication
  | unary
  | primary
  | function_call
  | column
  | literal
  | boolean
  | number
  | string
  | alias
  | alias_identifier
  | identifier
  | distinct
  | JOIN_TYPE
  | SELECT_KEY
  | FROM_KEY
  | WHERE_KEY
  | GROUP_KEY
  | BY_KEY
  | HAVING_KEY
  | ORDER_KEY
  | LIMIT_KEY
  | AS_KEY
  | JOIN_KEY
  | ON_KEY
  | UPDATE_KEY
  | SET_KEY
  | INSERT_KEY
  | INTO_KEY
  | VALUES_KEY
  | DELETE_KEY
  | EOI
deriving DecidableEq

/-- A pest parse-tree node: its production tag (`as_rule`), the literal
source text it matched (`as_str`), and its ordered children
(`into_inner`). -/
inductive Pair : Type where
  | mk : Rule → String → List Pair → Pair

/-- The production tag of a node (`Pair::as_rule`). -/
def Pair.rule : Pair → Rule
  | .mk r _ _ => r

/-- The matched source text of a node (`Pair::as_str`). -/
def Pair.text : Pair → String
  | .mk _ s _ => s

/-- The children of a node (`Pair::into_inner`). -/
def Pair.inner : Pair → List Pair
  | .mk _ _ l => l

/-- `HashMap::insert` on the alias map: overwrites any existing binding
for the key. -/
def mapInsert (k v : String) (l : List (String × String)) :
    List (String × String) :=
  (k, v) :: l.filter (fun p => p.1 ≠ k)

/-- `HashMap::get`-style lookup on the alias map. -/
def mapLookup (k : String) (l : List (String × String)) : Option String :=
  (l.find? (fun p => p.1 == k)).map (·.2)

/-- `HashMap::contains_key` on the alias map. -/
def mapContains (k : String) (l : List (String × String)) : Bool :=
  l.any (fun p => p.1 == k)

/-- Information about a JOIN operation in the query (struct `JoinInfo`). -/
structure JoinInfo : Type where
  join_type : Option String
  table : String
  «alias» : Option String
  condition : String
deriving DecidableEq

/-- Metadata extracted from SQL query parsing (struct `QueryMetadata`). -/
structure QueryMetadata : Type where
  tables : Finset String
  columns : Finset String
  aliases : List (String × String)
  functions : Finset String
  aggregates : Finset String
  joins : List JoinInfo
deriving DecidableEq

/-- `QueryMetadata::default()`: every field empty. -/
def QueryMetadata.default : QueryMetadata :=
  ⟨∅, ∅, [], ∅, ∅, []⟩

/-- The fixed allow-list of aggregate function names checked by
`analyze_expression_for_metadata`. -/
def aggregateNames : List String := ["SUM", "COUNT", "AVG", "MIN", "MAX"]

/-- ASCII uppercase of a character. -/
def charToUpper (c : Char) : Char :=
  if 'a' ≤ c ∧ c ≤ 'z' then Char.ofNat (c.toNat - 32) else c

/-- Rust `str::to_uppercase`, on the character list of the string (ASCII
case mapping, which is all the aggregate allow-list comparison can ever
exercise). -/
def strToUpper (s : String) : String := ⟨s.data.map charToUpper⟩

/-- Rust `s.split('(').next().unwrap_or("")`: the text before the first
opening parenthesis, or the whole text when none occurs. -/
def textBeforeParen (s : String) : String :=
  ⟨s.data.takeWhile (fun c => c != '(')⟩

mutual

/-- `analyze_pairs`: recursively analyze parse tree pairs. -/
def analyze_pairs : List Pair → QueryMetadata → QueryMetadata
  | [], m => m
  | .mk r _ inner :: rest, m =>
    analyze_pairs rest
      (if r = .statement then analyze_pairs inner m
       else if r = .select_stmt then analyze_select_stmt inner m
       else if r = .insert_stmt then analyze_insert_stmt inner m
       else if r = .update_stmt then analyze_update_stmt inner m
       else if r = .delete_stmt then analyze_delete_stmt inner m
       else analyze_pairs inner m)

/-- `analyze_select_stmt`: analyze SELECT statement components. -/
def analyze_select_stmt : List Pair → QueryMetadata → QueryMetadata
  | [], m => m
  | .mk r _ inner :: rest, m =>
    analyze_select_stmt rest
      (if r = .from_item then analyze_from_item inner m
       else if r = .join_clause then analyze_join_clause inner m
       else if r = .projection then analyze_projection inner m
       else if r = .where_clause then analyze_where_clause inner m
       else analyze_pairs inner m)

/-- `analyze_from_item`: analyze FROM clause items. -/
def analyze_from_item : List Pair → QueryMetadata → QueryMetadata
  | [], m => m
  | .mk r _ inner :: rest, m =>
    analyze_from_item rest
      (if r = .table_factor then analyze_table_factor inner m else m)

/-- The accumulation loop of `analyze_table_factor` (and of the
`table_factor` arm inside `analyze_join_clause`, whose match arms are
identical): threads the candidate table name and alias through the list. -/
def table_factor_loop :
    List Pair → Option String → Option String → QueryMetadata →
      Option String × Option String × QueryMetadata
  | [], t, a, m => (t, a, m)
  | .mk r s inner :: rest, t, a, m =>
    if r = .identifier then
      match t with
      | none => table_factor_loop rest (some s) a m
      | some _ => table_factor_loop rest t (some s) m
    else if r = .alias_identifier then
      table_factor_loop rest t (some s) m
    else
      table_factor_loop rest t a (analyze_pairs inner m)

/-- `analyze_table_factor`: analyze table references and their aliases. -/
def analyze_table_factor (ps : List Pair) (m : QueryMetadata) :
    QueryMetadata :=
  match table_factor_loop ps none none m with
  | (some table, a, m') =>
    { m' with
      tables := insert table m'.tables,
      aliases := match a with
        | some alias_name => mapInsert alias_name table m'.aliases
        | none => m'.aliases }
  | (none, _, m') => m'

/-- The accumulation loop of `analyze_join_clause`: threads the join type,
candidate table name, alias and condition text. -/
def join_clause_loop :
    List Pair → Option String → Option String → Option String → String →
      QueryMetadata →
      Option String × Option String × Option String × String × QueryMetadata
  | [], jt, t, a, c, m => (jt, t, a, c, m)
  | .mk r s inner :: rest, jt, t, a, c, m =>
    if r = .JOIN_TYPE then join_clause_loop rest (some s) t a c m
    else if r = .table_factor then
      match table_factor_loop inner t a m with
      | (t', a', m') => join_clause_loop rest jt t' a' c m'
    else if r = .ON_KEY then join_clause_loop rest jt t a c m
    else
      join_clause_loop rest jt t a s
        (analyze_expression_for_metadata inner m)

/-- `analyze_join_clause`: analyze JOIN clauses and extract join
information. -/
def analyze_join_clause (ps : List Pair) (m : QueryMetadata) :
    QueryMetadata :=
  match join_clause_loop ps none none none "" m with
  | (jt, some table_name, a, c, m') =>
    let m'' :=
      match a with
      | some alias_name =>
        { m' with aliases := mapInsert alias_name table_name m'.aliases }
      | none => m'
    { m'' with joins := m''.joins ++ [⟨jt, table_name, a, c⟩] }
  | (_, none, _, _, m') => m'

/-- `analyze_projection`: analyze SELECT projection (column list or *). -/
def analyze_projection : List Pair → QueryMetadata → QueryMetadata
  | [], m => m
  | .mk r _ inner :: rest, m =>
    analyze_projection rest
      (if r = .projection_list then projection_list_loop inner m
       else analyze_pairs inner m)

/-- The inner loop over a `projection_list` inside `analyze_projection`. -/
def projection_list_loop : List Pair → QueryMetadata → QueryMetadata
  | [], m => m
  | .mk r _ inner :: rest, m =>
    projection_list_loop rest
      (if r = .projection_item then analyze_projection_item inner m else m)

/-- `analyze_projection_item`: analyze individual projection items. -/
def analyze_projection_item : List Pair → QueryMetadata → QueryMetadata
  | [], m => m
  | .mk r _ inner :: rest, m =>
    analyze_projection_item rest
      (if r = .expr then analyze_expression_for_metadata inner m
       else analyze_pairs inner m)

/-- `analyze_where_clause`: analyze WHERE clause expressions. -/
def analyze_where_clause : List Pair → QueryMetadata → QueryMetadata
  | [], m => m
  | .mk r _ inner :: rest, m =>
    analyze_where_clause rest
      (if r = .expr then analyze_expression_for_metadata inner m else m)

/-- `analyze_expression_for_metadata`: extract metadata from expressions
(columns, functions, tables). -/
def analyze_expression_for_metadata :
    List Pair → QueryMetadata → QueryMetadata
  | [], m => m
  | .mk r s inner :: rest, m =>
    analyze_expression_for_metadata rest
      (if r = .column then { m with columns := insert s m.columns }
       else if r = .function_call then
         let func_name := textBeforeParen s
         let m1 := { m with functions := insert func_name m.functions }
         if aggregateNames.contains (strToUpper func_name) then
           { m1 with aggregates := insert func_name m1.aggregates }
         else m1
       else if r = .identifier then
         if mapContains s m.aliases then m
         else { m with tables := insert s m.tables }
       else analyze_expression_for_metadata inner m)

/-- `analyze_insert_stmt`: analyze INSERT statements. -/
def analyze_insert_stmt : List Pair → QueryMetadata → QueryMetadata
  | [], m => m
  | .mk r s inner :: rest, m =>
    analyze_insert_stmt rest
      (if r = .identifier then { m with tables := insert s m.tables }
       else if r = .expr then analyze_expression_for_metadata inner m
       else analyze_pairs inner m)

/-- `analyze_update_stmt`: analyze UPDATE statements. -/
def analyze_update_stmt : List Pair → QueryMetadata → QueryMetadata
  | [], m => m
  | .mk r s inner :: rest, m =>
    analyze_update_stmt rest
      (if r = .identifier then { m with tables := insert s m.tables }
       else if r = .set_list then analyze_set_list inner m
       else if r = .where_clause then analyze_where_clause inner m
       else analyze_pairs inner m)

/-- `analyze_delete_stmt`: analyze DELETE statements. -/
def analyze_delete_stmt : List Pair → QueryMetadata → QueryMetadata
  | [], m => m
  | .mk r s inner :: rest, m =>
    analyze_delete_stmt rest
      (if r = .identifier then { m with tables := insert s m.tables }
       else if r = .where_clause then analyze_where_clause inner m
       else analyze_pairs inner m)

/-- `analyze_set_list`: analyze SET clause in UPDATE statements. -/
def analyze_set_list : List Pair → QueryMetadata → QueryMetadata
  | [], m => m
  | .mk r _ inner :: rest, m =>
    analyze_set_list rest
      (if r = .set_item then analyze_set_item inner m else m)

/-- `analyze_set_item`: analyze individual SET items (column = value). -/
def analyze_set_item : List Pair → QueryMetadata → QueryMetadata
  | [], m => m
  | .mk r s inner :: rest, m =>
    analyze_set_item rest
      (if r = .identifier then { m with columns := insert s m.columns }
       else if r = .expr then analyze_expression_for_metadata inner m
       else analyze_pairs inner m)

end

/-- `analyze_sql`: parse the input, then run the analyzer on the resulting
pairs starting from the default (empty) metadata.  The pest engine and the
grammar file live outside `src/`, so the parse step is a parameter; the
function body mirrors `analyze_sql` of `src/lib.rs`. -/
def analyze_sql {ε : Type} (parseFn : String → Except ε (List Pair))
    (input : String) : Except ε QueryMetadata :=
  match parseFn input with
  | .error e => .error e
  | .ok pairs => .ok (analyze_pairs pairs QueryMetadata.default)

/-- `true` when no node of the forest is tagged with one of the four
statement productions that `analyze_pairs` dispatches on specially. -/
def no_stmt_in : List Pair → Bool
  | [] => true
  | .mk r _ inner :: rest =>
    !(r == .select_stmt) && !(r == .insert_stmt) && !(r == .update_stmt) &&
      !(r == .delete_stmt) && no_stmt_in inner && no_stmt_in rest

/-- The data invariant of the accumulator stated by the spec: aggregates
form a subset of functions, every aggregate's uppercase form is in the
allow-list, and the alias map holds at most one entry per alias name. -/
def MetadataInv (m : QueryMetadata) : Prop :=
  m.aggregates ⊆ m.functions ∧
  (∀ a ∈ m.aggregates, strToUpper a ∈ aggregateNames) ∧
  (m.aliases.map Prod.fst).Nodup

/-- Modelled from the spec: a generic structured value, standing in for
the JSON values of the external serialization adapter (serde_json is not
part of `src/`). -/
inductive JVal : Type where
  | jnull : JVal
  | jstr : String → JVal
  | jarr : List JVal → JVal
  | jobj : List (String × JVal) → JVal

/-- Modelled from the spec: a set-typed field is serialized as an array of
its members (iteration order is not part of the contract; a sorted order
is one admissible choice). -/
def encodeStrSet (s : Finset String) : JVal :=
  .jarr ((s.sort (· ≤ ·)).map .jstr)

/-- Modelled from the spec: an optional string serializes to null or to
the string itself. -/
def encodeOptStr : Option String → JVal
  | none => .jnull
  | some s => .jstr s

/-- Modelled from the spec: a JoinInfo serializes as an object with fields
join_type, table, alias, condition. -/
def encodeJoinInfo (j : JoinInfo) : JVal :=
  .jobj [("join_type", encodeOptStr j.join_type), ("table", .jstr j.table),
    ("alias", encodeOptStr j.«alias»), ("condition", .jstr j.condition)]

/-- Modelled from the spec: a QueryMetadata serializes as an object with
fields tables, columns, aliases, functions, aggregates, joins. -/
def encodeMetadata (m : QueryMetadata) : JVal :=
  .jobj [("tables", encodeStrSet m.tables),
    ("columns", encodeStrSet m.columns),
    ("aliases", .jobj (m.aliases.map fun p => (p.1, JVal.jstr p.2))),
    ("functions", encodeStrSet m.functions),
    ("aggregates", encodeStrSet m.aggregates),
    ("joins", .jarr (m.joins.map encodeJoinInfo))]

/-- Modelled from the spec: decode a serialized string. -/
def decodeStr : JVal → Option String
  | .jstr s => some s
  | _ => none

/-- Modelled from the spec: decode a list of serialized strings. -/
def decodeStrList : List JVal → Option (List String)
  | [] => some []
  | v :: vs => do
    let s ← decodeStr v
    let rest ← decodeStrList vs
    some (s :: rest)

/-- Modelled from the spec: decode a serialized string set. -/
def decodeStrSet : JVal → Option (Finset String)
  | .jarr xs => (decodeStrList xs).map List.toFinset
  | _ => none

/-- Modelled from the spec: decode a serialized optional string. -/
def decodeOptStr : JVal → Option (Option String)
  | .jnull => some none
  | .jstr s => some (some s)
  | _ => none

/-- Modelled from the spec: decode a serialized JoinInfo. -/
def decodeJoinInfo : JVal → Option JoinInfo
  | .jobj [("join_type", v1), ("table", .jstr t), ("alias", v3),
      ("condition", .jstr c)] => do
    let jt ← decodeOptStr v1
    let al ← decodeOptStr v3
    some ⟨jt, t, al, c⟩
  | _ => none

/-- Modelled from the spec: decode the fields of a serialized alias map. -/
def decodeAliasList : List (String × JVal) → Option (List (String × String))
  | [] => some []
  | (k, v) :: fs => do
    let s ← decodeStr v
    let rest ← decodeAliasList fs
    some ((k, s) :: rest)

/-- Modelled from the spec: decode a serialized alias map. -/
def decodeAliases : JVal → Option (List (String × String))
  | .jobj fs => decodeAliasList fs
  | _ => none

/-- Modelled from the spec: decode a list of serialized JoinInfos. -/
def decodeJoinList : List JVal → Option (List JoinInfo)
  | [] => some []
  | v :: vs => do
    let j ← decodeJoinInfo v
    let rest ← decodeJoinList vs
    some (j :: rest)

/-- Modelled from the spec: decode a serialized QueryMetadata. -/
def decodeMetadata : JVal → Option QueryMetadata
  | .jobj [("tables", vt), ("columns", vc), ("aliases", va),
      ("functions", vf), ("aggregates", vg), ("joins", .jarr vj)] => do
    let t ← decodeStrSet vt
    let c ← decodeStrSet vc
    let al ← decodeAliases va
    let f ← decodeStrSet vf
    let g ← decodeStrSet vg
    let js ← decodeJoinList vj
    some ⟨t, c, al, f, g, js⟩
  | _ => none

/-- Modelled from the spec: the arithmetic wrapper chain
addition → multiplication → unary → primary around a primary node, as the
expression grammar produces for a single operand. -/
def arith (s : String) (p : Pair) : Pair :=
  .mk .addition s [.mk .multiplication s [.mk .unary s [.mk .primary s [p]]]]

/-- Modelled from the spec: the boolean wrapper chain
or_expr → and_expr → not_expr around a comparison node. -/
def boolChain (s : String) (c : Pair) : Pair :=
  .mk .or_expr s [.mk .and_expr s [.mk .not_expr s [c]]]

/-- Modelled from the spec: a full `expr` subtree whose only operand is
the given primary node. -/
def exprOf (s : String) (p : Pair) : Pair :=
  .mk .expr s [boolChain s (.mk .comparison s [arith s p])]

/-- Modelled from the spec: the select_stmt subtree the grammar of §4.1
produces for `SELECT SUM(price) FROM orders`. -/
def c1_select : Pair :=
  .mk .select_stmt "SELECT SUM(price) FROM orders"
    [.mk .SELECT_KEY "SELECT" [],
     .mk .projection "SUM(price)"
       [.mk .projection_list "SUM(price)"
         [.mk .projection_item "SUM(price)"
           [exprOf "SUM(price)"
             (.mk .function_call "SUM(price)"
               [.mk .identifier "SUM" [],
                .mk .expr_list "price"
                  [exprOf "price"
                    (.mk .column "price" [.mk .identifier "price" []])]])]]],
     .mk .FROM_KEY "FROM" [],
     .mk .from_item "orders"
       [.mk .table_factor "orders" [.mk .identifier "orders" []]]]

/-- Modelled from the spec: the parse tree of
`SELECT SUM(price) FROM orders` (grammar file and pest engine are outside
`src/`; shape follows the grammar of §4.1). -/
def c1_tree : List Pair :=
  [.mk .sql "SELECT SUM(price) FROM orders"
    [.mk .statement "SELECT SUM(price) FROM orders" [c1_select],
     .mk .EOI "" []]]

/-- Modelled from the spec: the update_stmt subtree the grammar of §4.1
produces for `UPDATE users SET name = 'John', age = 25 WHERE id = 1`. -/
def c8_update : Pair :=
  .mk .update_stmt "UPDATE users SET name = 'John', age = 25 WHERE id = 1"
    [.mk .UPDATE_KEY "UPDATE" [],
     .mk .identifier "users" [],
     .mk .SET_KEY "SET" [],
     .mk .set_list "name = 'John', age = 25"
       [.mk .set_item "name = 'John'"
         [.mk .identifier "name" [],
          exprOf "'John'"
            (.mk .literal "'John'" [.mk .string "'John'" []])],
        .mk .set_item "age = 25"
          [.mk .identifier "age" [],
           exprOf "25" (.mk .literal "25" [.mk .number "25" []])]],
     .mk .where_clause "WHERE id = 1"
       [.mk .WHERE_KEY "WHERE" [],
        .mk .expr "id = 1"
          [boolChain "id = 1"
            (.mk .comparison "id = 1"
              [arith "id" (.mk .column "id" [.mk .identifier "id" []]),
               .mk .comparison_suffix "= 1"
                 [.mk .comp_op "=" [],
                  arith "1" (.mk .literal "1" [.mk .number "1" []])]])]]]

/-- Modelled from the spec: the parse tree of
`UPDATE users SET name = 'John', age = 25 WHERE id = 1`. -/
def c8_tree : List Pair :=
  [.mk .sql "UPDATE users SET name = 'John', age = 25 WHERE id = 1"
    [.mk .statement "UPDATE users SET name = 'John', age = 25 WHERE id = 1"
      [c8_update],
     .mk .EOI "" []]]

/-- The shape the grammar of §4.1 gives a `table_factor`'s children:
identifiers, an alias identifier, and possibly a bare AS keyword. -/
def tf_shape (ps : List Pair) : Prop :=
  ∀ p ∈ ps, p.rule = .identifier ∨ p.rule = .alias_identifier ∨
    (p.rule = .AS_KEY ∧ p.inner = [])

/-- Modelled from the spec: the child list of a `join_clause` node per the
grammar of §4.1 (optional join type, JOIN keyword, table factor, ON
keyword, and the ON expression). -/
def join_clause_pairs (jts : List Pair) (sJ tfText sOn sE : String)
    (tfInner eInner : List Pair) : List Pair :=
  jts ++ [Pair.mk .JOIN_KEY sJ [], Pair.mk .table_factor tfText tfInner,
    Pair.mk .ON_KEY sOn [], Pair.mk .expr sE eInner]

/-- A small SELECT tree whose WHERE clause contains a SUM call, used to
exhibit a nonempty aggregates set. -/
def w6_tree : List Pair :=
  [.mk .select_stmt "SELECT a FROM t WHERE SUM(x) > 0"
    [.mk .where_clause "WHERE SUM(x) > 0"
      [.mk .expr "SUM(x) > 0" [.mk .function_call "SUM(x)" []]]]]

/-! ### Lemmas about the expression-metadata walk -/

lemma walk_joins (ps : List Pair) (m : QueryMetadata) :
    (analyze_expression_for_metadata ps m).joins = m.joins := by
  induction ps, m using analyze_expression_for_metadata.induct with
  | case1 m => simp [analyze_expression_for_metadata]
  | case2 r a inner rest m ih1 ih2 =>
    simp only [dite_eq_ite] at ih2
    simp only [analyze_expression_for_metadata]
    rw [ih2]
    repeat' split
    all_goals first | rfl | exact ih1

lemma walk_aliases (ps : List Pair) (m : QueryMetadata) :
    (analyze_expression_for_metadata ps m).aliases = m.aliases := by
  induction ps, m using analyze_expression_for_metadata.induct with
  | case1 m => simp [analyze_expression_for_metadata]
  | case2 r a inner rest m ih1 ih2 =>
    simp only [dite_eq_ite] at ih2
    simp only [analyze_expression_for_metadata]
    rw [ih2]
    repeat' split
    all_goals first | rfl | exact ih1

lemma walk_tables_subset (ps : List Pair) (m : QueryMetadata) :
    m.tables ⊆ (analyze_expression_for_metadata ps m).tables := by
  induction ps, m using analyze_expression_for_metadata.induct with
  | case1 m => simp [analyze_expression_for_metadata]
  | case2 r a inner rest m ih1 ih2 =>
    simp only [dite_eq_ite] at ih2
    simp only [analyze_expression_for_metadata]
    refine subset_trans ?_ ih2
    repeat' split
    all_goals first | exact subset_rfl | exact Finset.subset_insert _ _ | exact ih1

/-! ### The accumulator invariant and its preservation -/

lemma mapInsert_keys_nodup (k v : String) (l : List (String × String))
    (h : (l.map Prod.fst).Nodup) :
    ((mapInsert k v l).map Prod.fst).Nodup := by
  simp only [mapInsert, List.map_cons, List.nodup_cons]
  refine ⟨?_, ?_⟩
  · intro hk
    obtain ⟨p, hp, hpk⟩ := List.mem_map.mp hk
    exact of_decide_eq_true (List.mem_filter.mp hp).2 hpk
  · exact h.sublist ((List.filter_sublist l).map Prod.fst)

lemma inv_fn_true (m : QueryMetadata) (fn : String)
    (hfn : strToUpper fn ∈ aggregateNames) (h : MetadataInv m) :
    MetadataInv
      { m with functions := insert fn m.functions,
               aggregates := insert fn m.aggregates } := by
  obtain ⟨h1, h2, h3⟩ := h
  refine ⟨Finset.insert_subset_insert _ h1, ?_, h3⟩
  intro a ha
  rcases Finset.mem_insert.mp ha with rfl | ha
  · exact hfn
  · exact h2 a ha

lemma inv_fn_false (m : QueryMetadata) (fn : String) (h : MetadataInv m) :
    MetadataInv { m with functions := insert fn m.functions } := by
  obtain ⟨h1, h2, h3⟩ := h
  exact ⟨h1.trans (Finset.subset_insert _ _), h2, h3⟩

lemma inv_mapInsert (m : QueryMetadata) (k v : String) (h : MetadataInv m) :
    MetadataInv { m with aliases := mapInsert k v m.aliases } := by
  obtain ⟨h1, h2, h3⟩ := h
  exact ⟨h1, h2, mapInsert_keys_nodup k v m.aliases h3⟩

lemma inv_walk (ps : List Pair) (m : QueryMetadata) (hm : MetadataInv m) :
    MetadataInv (analyze_expression_for_metadata ps m) := by
  induction ps, m using analyze_expression_for_metadata.induct with
  | case1 m => simpa [analyze_expression_for_metadata] using hm
  | case2 r a inner rest m ih1 ih2 =>
    simp only [dite_eq_ite] at ih2
    simp only [analyze_expression_for_metadata]
    apply ih2
    split
    · exact hm
    split
    · split
      next hc =>
        refine inv_fn_true m (textBeforeParen a) ?_ hm
        simpa using hc
      next _ => exact inv_fn_false m (textBeforeParen a) hm
    split
    · split
      · exact hm
      · exact hm
    · exact ih1 hm

lemma inv_where (ps : List Pair) (m : QueryMetadata) (hm : MetadataInv m) :
    MetadataInv (analyze_where_clause ps m) := by
  induction ps, m using analyze_where_clause.induct with
  | case1 m => simpa [analyze_where_clause] using hm
  | case2 r a inner rest m ih =>
    simp only [analyze_where_clause]
    apply ih
    split
    · exact inv_walk inner m hm
    · exact hm

/-! ### The generic recursion performs no insertions -/

lemma sizeOf_inner_lt (r : Rule) (s : String) (inner rest : List Pair) :
    sizeOf inner < sizeOf (Pair.mk r s inner :: rest) := by
  simp
  try omega

lemma sizeOf_rest_lt (r : Rule) (s : String) (inner rest : List Pair) :
    sizeOf rest < sizeOf (Pair.mk r s inner :: rest) := by
  simp
  try omega

lemma analyze_pairs_no_stmt :
    ∀ (n : Nat) (ps : List Pair) (m : QueryMetadata), sizeOf ps ≤ n →
      no_stmt_in ps = true → analyze_pairs ps m = m := by
  intro n
  induction n using Nat.strong_induction_on with
  | _ n IH =>
    intro ps m hsz hns
    match ps, hns with
    | [], _ => simp [analyze_pairs]
    | .mk r s inner :: rest, hns =>
      simp only [no_stmt_in, Bool.and_eq_true, Bool.not_eq_true',
        beq_eq_false_iff_ne] at hns
      obtain ⟨⟨⟨⟨⟨h1, h2⟩, h3⟩, h4⟩, hinner⟩, hrest⟩ := hns
      have hi : analyze_pairs inner m = m :=
        IH (sizeOf inner) (lt_of_lt_of_le (sizeOf_inner_lt r s inner rest) hsz)
          inner m le_rfl hinner
      have hr : ∀ m', analyze_pairs rest m' = m' := fun m' =>
        IH (sizeOf rest) (lt_of_lt_of_le (sizeOf_rest_lt r s inner rest) hsz)
          rest m' le_rfl hrest
      simp only [analyze_pairs]
      by_cases hst : r = .statement
      · simp [hst, hi, hr]
      · simp [hst, h1, h2, h3, h4, hi, hr]

lemma analyze_pairs_of_no_stmt (ps : List Pair) (m : QueryMetadata)
    (h : no_stmt_in ps = true) : analyze_pairs ps m = m :=
  analyze_pairs_no_stmt (sizeOf ps) ps m le_rfl h

theorem inv_all :
    (∀ ps m, MetadataInv m → MetadataInv (analyze_pairs ps m)) ∧
    (∀ ps m, MetadataInv m → MetadataInv (analyze_delete_stmt ps m)) ∧
    (∀ ps m, MetadataInv m → MetadataInv (analyze_update_stmt ps m)) ∧
    (∀ ps m, MetadataInv m → MetadataInv (analyze_set_list ps m)) ∧
    (∀ ps m, MetadataInv m → MetadataInv (analyze_set_item ps m)) ∧
    (∀ ps m, MetadataInv m → MetadataInv (analyze_insert_stmt ps m)) ∧
    (∀ ps m, MetadataInv m → MetadataInv (analyze_select_stmt ps m)) ∧
    (∀ ps m, MetadataInv m → MetadataInv (analyze_projection ps m)) ∧
    (∀ ps m, MetadataInv m → MetadataInv (projection_list_loop ps m)) ∧
    (∀ ps m, MetadataInv m → MetadataInv (analyze_projection_item ps m)) ∧
    (∀ ps m, MetadataInv m → MetadataInv (analyze_join_clause ps m)) ∧
    (∀ ps jt t a c m, MetadataInv m →
      MetadataInv (join_clause_loop ps jt t a c m).2.2.2.2) ∧
    (∀ ps t a m, MetadataInv m →
      MetadataInv (table_factor_loop ps t a m).2.2) ∧
    (∀ ps m, MetadataInv m → MetadataInv (analyze_from_item ps m)) ∧
    (∀ ps m, MetadataInv m → MetadataInv (analyze_table_factor ps m)) := by
  apply analyze_pairs.mutual_induct
  -- motive1 = analyze_pairs
  · intro m hm
    simpa [analyze_pairs] using hm
  · intro r a inner rest m ih1 ih7 ih6 ih3 ih2 ihrest hm
    simp only [dite_eq_ite] at ihrest
    simp only [analyze_pairs]
    apply ihrest
    repeat' split
    all_goals
      first
      | exact ih1 hm
      | exact ih7 hm
      | exact ih6 hm
      | exact ih3 hm
      | exact ih2 hm
  -- motive2 = analyze_delete_stmt
  · intro m hm
    simpa [analyze_delete_stmt] using hm
  · intro r a inner rest m ih1 ihrest hm
    simp only [dite_eq_ite] at ihrest
    simp only [analyze_delete_stmt]
    apply ihrest
    repeat' split
    all_goals first | exact hm | exact inv_where inner m hm | exact ih1 hm
  -- motive3 = analyze_update_stmt
  · intro m hm
    simpa [analyze_update_stmt] using hm
  · intro r a inner rest m ih4 ih1 ihrest hm
    simp only [dite_eq_ite] at ihrest
    simp only [analyze_update_stmt]
    apply ihrest
    repeat' split
    all_goals
      first
      | exact hm
      | exact ih4 hm
      | exact inv_where inner m hm
      | exact ih1 hm
  -- motive4 = analyze_set_list
  · intro m hm
    simpa [analyze_set_list] using hm
  · intro r a inner rest m ih5 ihrest hm
    simp only [dite_eq_ite] at ihrest
    simp only [analyze_set_list]
    apply ihrest
    repeat' split
    all_goals first | exact hm | exact ih5 hm
  -- motive5 = analyze_set_item
  · intro m hm
    simpa [analyze_set_item] using hm
  · intro r a inner rest m ih1 ihrest hm
    simp only [dite_eq_ite] at ihrest
    simp only [analyze_set_item]
    apply ihrest
    repeat' split
    all_goals first | exact hm | exact inv_walk inner m hm | exact ih1 hm
  -- motive6 = analyze_insert_stmt
  · intro m hm
    simpa [analyze_insert_stmt] using hm
  · intro r a inner rest m ih1 ihrest hm
    simp only [dite_eq_ite] at ihrest
    simp only [analyze_insert_stmt]
    apply ihrest
    repeat' split
    all_goals first | exact hm | exact inv_walk inner m hm | exact ih1 hm
  -- motive7 = analyze_select_stmt
  · intro m hm
    simpa [analyze_select_stmt] using hm
  · intro r a inner rest m ih14 ih11 ih8 ih1 ihrest hm
    simp only [dite_eq_ite] at ihrest
    simp only [analyze_select_stmt]
    apply ihrest
    repeat' split
    all_goals
      first
      | exact ih14 hm
      | exact ih11 hm
      | exact ih8 hm
      | exact inv_where inner m hm
      | exact ih1 hm
  -- motive8 = analyze_projection
  · intro m hm
    simpa [analyze_projection] using hm
  · intro r a inner rest m ih9 ih1 ihrest hm
    simp only [dite_eq_ite] at ihrest
    simp only [analyze_projection]
    apply ihrest
    repeat' split
    all_goals first | exact ih9 hm | exact ih1 hm
  -- motive9 = projection_list_loop
  · intro m hm
    simpa [projection_list_loop] using hm
  · intro r a inner rest m ih10 ihrest hm
    simp only [dite_eq_ite] at ihrest
    simp only [projection_list_loop]
    apply ihrest
    repeat' split
    all_goals first | exact hm | exact ih10 hm
  -- motive10 = analyze_projection_item
  · intro m hm
    simpa [analyze_projection_item] using hm
  · intro r a inner rest m ih1 ihrest hm
    simp only [dite_eq_ite] at ihrest
    simp only [analyze_projection_item]
    apply ihrest
    repeat' split
    all_goals first | exact inv_walk inner m hm | exact ih1 hm
  -- motive11 = analyze_join_clause, two cases on the loop result
  · intro ps m jt tn a c m' heq ih12 hm
    have hm' : MetadataInv m' := by
      have h := ih12 hm
      rw [heq] at h
      exact h
    simp only [analyze_join_clause]
    rw [heq]
    cases a with
    | none => exact hm'
    | some al => exact inv_mapInsert m' al tn hm'
  · intro ps m jt a c m' heq ih12 hm
    have hm' : MetadataInv m' := by
      have h := ih12 hm
      rw [heq] at h
      exact h
    simp only [analyze_join_clause]
    rw [heq]
    exact hm'
  -- motive12 = join_clause_loop
  · intro jt t a c m hm
    simpa [join_clause_loop] using hm
  · intro s inner rest jt t a c m ihrest hm
    simp only [join_clause_loop]
    simp only [reduceIte]
    exact ihrest hm
  · intro s inner rest jt t a c m t' a' m' heq hne ih13 ihrest hm
    simp only [join_clause_loop]
    rw [if_neg hne]
    simp only [reduceIte]
    rw [heq]
    apply ihrest
    have h := ih13 hm
    rw [heq] at h
    exact h
  · intro s inner rest jt t a c m h1 h2 ihrest hm
    simp only [join_clause_loop]
    rw [if_neg h1, if_neg h2]
    simp only [reduceIte]
    exact ihrest hm
  · intro r s inner rest jt t a c m h1 h2 h3 ihrest hm
    simp only [join_clause_loop]
    rw [if_neg h1, if_neg h2, if_neg h3]
    exact ihrest (inv_walk inner m hm)
  -- motive13 = table_factor_loop
  · intro t a m hm
    simpa [table_factor_loop] using hm
  · intro s inner rest a m ihrest hm
    simp only [table_factor_loop]
    simp only [reduceIte]
    exact ihrest hm
  · intro s inner rest a m tv ihrest hm
    simp only [table_factor_loop]
    simp only [reduceIte]
    exact ihrest hm
  · intro s inner rest t a m hne ihrest hm
    cases t <;> simp [table_factor_loop] <;> exact ihrest hm
  · intro r s inner rest t a m h1 h2 ih1 ihrest hm
    cases t <;> simp [table_factor_loop, h1, h2] <;> exact ihrest (ih1 hm)
  -- motive14 = analyze_from_item
  · intro m hm
    simpa [analyze_from_item] using hm
  · intro r a inner rest m ih15 ihrest hm
    simp only [dite_eq_ite] at ihrest
    simp only [analyze_from_item]
    apply ihrest
    repeat' split
    all_goals first | exact hm | exact ih15 hm
  -- motive15 = analyze_table_factor, two cases on the loop result
  · intro ps m tn a m' heq ih13 hm
    have hm' : MetadataInv m' := by
      have h := ih13 hm
      rw [heq] at h
      exact h
    simp only [analyze_table_factor]
    rw [heq]
    cases a with
    | none => exact hm'
    | some al => exact inv_mapInsert m' al tn hm'
  · intro ps m a m' heq ih13 hm
    have hm' : MetadataInv m' := by
      have h := ih13 hm
      rw [heq] at h
      exact h
    simp only [analyze_table_factor]
    rw [heq]
    exact hm'

/-! ### Characterization of the table-factor loop on grammar-shaped input -/

lemma tf_loop_shaped :
    ∀ (ps : List Pair) (t a : Option String) (m : QueryMetadata),
      tf_shape ps →
      (table_factor_loop ps t a m).2.2 = m ∧
      ∀ tn, (table_factor_loop ps t a m).1 = some tn →
        t = some tn ∨ ∃ p ∈ ps, p.rule = .identifier ∧ p.text = tn := by
  intro ps
  induction ps with
  | nil =>
    intro t a m _
    simp [table_factor_loop]
  | cons p rest ih =>
    intro t a m hsh
    obtain ⟨r, s, inner⟩ := p
    have hp := hsh (Pair.mk r s inner) (by simp)
    have hrest : tf_shape rest := fun q hq => hsh q (by simp [hq])
    rcases hp with hid | hal | ⟨hak, hin⟩
    · simp only [Pair.rule] at hid
      subst hid
      cases t with
      | none =>
        simp only [table_factor_loop, reduceIte]
        obtain ⟨h1, h2⟩ := ih (some s) a m hrest
        refine ⟨h1, ?_⟩
        intro tn htn
        rcases h2 tn htn with h | ⟨q, hq, hq2⟩
        · right
          refine ⟨Pair.mk .identifier s inner, by simp, by simp [Pair.rule], ?_⟩
          simpa [Pair.text] using (Option.some_inj.mp h)
        · exact Or.inr ⟨q, by simp [hq], hq2⟩
      | some v =>
        simp only [table_factor_loop, reduceIte]
        obtain ⟨h1, h2⟩ := ih (some v) (some s) m hrest
        refine ⟨h1, ?_⟩
        intro tn htn
        rcases h2 tn htn with h | ⟨q, hq, hq2⟩
        · exact Or.inl h
        · exact Or.inr ⟨q, by simp [hq], hq2⟩
    · simp only [Pair.rule] at hal
      subst hal
      have step : table_factor_loop (Pair.mk .alias_identifier s inner :: rest) t a m =
          table_factor_loop rest t (some s) m := by
        cases t <;> simp [table_factor_loop]
      rw [step]
      obtain ⟨h1, h2⟩ := ih t (some s) m hrest
      refine ⟨h1, ?_⟩
      intro tn htn
      rcases h2 tn htn with h | ⟨q, hq, hq2⟩
      · exact Or.inl h
      · exact Or.inr ⟨q, by simp [hq], hq2⟩
    · simp only [Pair.rule] at hak
      simp only [Pair.inner] at hin
      subst hak
      subst hin
      have step : table_factor_loop (Pair.mk .AS_KEY s [] :: rest) t a m =
          table_factor_loop rest t a m := by
        cases t <;> simp [table_factor_loop, analyze_pairs]
      rw [step]
      obtain ⟨h1, h2⟩ := ih t a m hrest
      refine ⟨h1, ?_⟩
      intro tn htn
      rcases h2 tn htn with h | ⟨q, hq, hq2⟩
      · exact Or.inl h
      · exact Or.inr ⟨q, by simp [hq], hq2⟩

lemma mapLookup_mapInsert_self (k v : String) (l : List (String × String)) :
    mapLookup k (mapInsert k v l) = some v := by
  simp [mapLookup, mapInsert]

lemma join_loop_shaped (jts : List Pair) (sJ sOn sE tfText : String)
    (tfInner eInner : List Pair) (m : QueryMetadata) (t' a' : Option String)
    (hjts : jts = [] ∨ ∃ sT, jts = [Pair.mk .JOIN_TYPE sT []])
    (hloop : table_factor_loop tfInner none none m = (t', a', m)) :
    join_clause_loop
      (jts ++ [Pair.mk .JOIN_KEY sJ [], Pair.mk .table_factor tfText tfInner,
        Pair.mk .ON_KEY sOn [], Pair.mk .expr sE eInner]) none none none "" m =
      (jts.head?.map Pair.text, t', a', sE,
        analyze_expression_for_metadata eInner m) := by
  rcases hjts with rfl | ⟨sT, rfl⟩
  · simp [join_clause_loop, hloop, analyze_expression_for_metadata, Pair.text]
  · simp [join_clause_loop, hloop, analyze_expression_for_metadata, Pair.text]

/-- C2: for a grammar-shaped join clause whose table factor resolves a
table name, exactly one JoinInfo is appended at the end of joins, its
condition is the literal text of the ON expression, its alias (when
present) is registered in aliases, tables gains nothing beyond the
sub-walk of the ON expression, no JoinInfo is appended when no table name
resolves, and every recorded JoinInfo has a non-empty table field. -/
theorem C2_join_clause (jts : List Pair) (sJ sOn sE tfText : String)
    (tfInner eInner : List Pair) (m : QueryMetadata)
    (hjts : jts = [] ∨ ∃ sT, jts = [Pair.mk .JOIN_TYPE sT []])
    (htf : tf_shape tfInner)
    (hids : ∀ p ∈ tfInner, p.rule = .identifier → p.text ≠ "")
    (hm : ∀ j ∈ m.joins, j.table ≠ "") :
    (∀ tn, (table_factor_loop tfInner none none m).1 = some tn →
      (analyze_join_clause
          (join_clause_pairs jts sJ tfText sOn sE tfInner eInner) m).joins =
        m.joins ++ [⟨jts.head?.map Pair.text, tn,
          (table_factor_loop tfInner none none m).2.1, sE⟩] ∧
      (∀ al, (table_factor_loop tfInner none none m).2.1 = some al →
        mapLookup al
          (analyze_join_clause
            (join_clause_pairs jts sJ tfText sOn sE tfInner eInner) m).aliases =
          some tn) ∧
      (analyze_join_clause
          (join_clause_pairs jts sJ tfText sOn sE tfInner eInner) m).tables =
        (analyze_expression_for_metadata eInner m).tables) ∧
    ((table_factor_loop tfInner none none m).1 = none →
      (analyze_join_clause
          (join_clause_pairs jts sJ tfText sOn sE tfInner eInner) m).joins =
        m.joins) ∧
    (∀ j ∈ (analyze_join_clause
        (join_clause_pairs jts sJ tfText sOn sE tfInner eInner) m).joins,
      j.table ≠ "") := by
  obtain ⟨hmeta, hsrc⟩ := tf_loop_shaped tfInner none none m htf
  rcases hres : table_factor_loop tfInner none none m with ⟨t', a', m2⟩
  rw [hres] at hmeta hsrc
  simp only at hmeta
  rw [hmeta] at hres
  have hjoin := join_loop_shaped jts sJ sOn sE tfText tfInner eInner m t' a'
    hjts hres
  have hstep : ∀ tn, t' = some tn →
      analyze_join_clause (join_clause_pairs jts sJ tfText sOn sE tfInner eInner) m =
        (let m1 := analyze_expression_for_metadata eInner m
         let m2 := match a' with
           | some al => { m1 with aliases := mapInsert al tn m1.aliases }
           | none => m1
         { m2 with joins := m2.joins ++ [⟨jts.head?.map Pair.text, tn, a', sE⟩] }) := by
    intro tn htn
    subst htn
    simp only [analyze_join_clause, join_clause_pairs]
    rw [hjoin]
  refine ⟨?_, ?_, ?_⟩
  · intro tn htn
    simp only at htn
    rw [hstep tn htn]
    subst htn
    refine ⟨?_, ?_, ?_⟩
    · cases a' <;> simp [walk_joins]
    · intro al hal
      simp only at hal
      subst hal
      simp [mapLookup_mapInsert_self]
    · cases a' <;> simp
  · intro htn
    simp only at htn
    subst htn
    simp only [analyze_join_clause, join_clause_pairs]
    rw [hjoin]
    exact walk_joins eInner m
  · intro j hj
    cases ht' : t' with
    | none =>
      rw [ht'] at hjoin
      simp only [analyze_join_clause, join_clause_pairs] at hj
      rw [hjoin] at hj
      simp only [walk_joins] at hj
      exact hm j hj
    | some tn =>
      rw [hstep tn ht'] at hj
      have htn_src := hsrc tn (by simp [ht'])
      have htn_ne : tn ≠ "" := by
        rcases htn_src with h | ⟨p, hp, hpid, hptext⟩
        · exact absurd h (by simp)
        · exact hptext ▸ hids p hp hpid
      cases a' with
      | none =>
        simp only [walk_joins, List.mem_append, List.mem_singleton] at hj
        rcases hj with hj | rfl
        · exact hm j hj
        · exact htn_ne
      | some al =>
        simp only [walk_joins, List.mem_append, List.mem_singleton] at hj
        rcases hj with hj | rfl
        · exact hm j hj
        · exact htn_ne

/-! ### Round-trip of the modelled serializer -/

lemma decode_encode_strList (l : List String) :
    decodeStrList (l.map JVal.jstr) = some l := by
  induction l with
  | nil => rfl
  | cons x xs ih => simp [decodeStrList, decodeStr, ih]

lemma decode_encode_strSet (s : Finset String) :
    decodeStrSet (encodeStrSet s) = some s := by
  simp [decodeStrSet, encodeStrSet, decode_encode_strList]

lemma decode_encode_optStr (o : Option String) :
    decodeOptStr (encodeOptStr o) = some o := by
  cases o <;> rfl

lemma decode_encode_join (j : JoinInfo) :
    decodeJoinInfo (encodeJoinInfo j) = some j := by
  obtain ⟨jt, t, al, c⟩ := j
  cases jt <;> cases al <;> rfl

lemma decode_encode_joins (js : List JoinInfo) :
    decodeJoinList (js.map encodeJoinInfo) = some js := by
  induction js with
  | nil => rfl
  | cons x xs ih => simp [decodeJoinList, decode_encode_join, ih]

lemma decode_encode_aliases (l : List (String × String)) :
    decodeAliases (.jobj (l.map fun p => (p.1, JVal.jstr p.2))) = some l := by
  simp only [decodeAliases]
  induction l with
  | nil => rfl
  | cons x xs ih => simp [decodeAliasList, decodeStr, ih]

lemma decode_encode (md : QueryMetadata) :
    decodeMetadata (encodeMetadata md) = some md := by
  obtain ⟨t, c, al, f, g, js⟩ := md
  simp [encodeMetadata, decodeMetadata, decode_encode_strSet,
    decode_encode_joins, decode_encode_aliases]

lemma inv_default : MetadataInv QueryMetadata.default := by
  refine ⟨?_, ?_, ?_⟩ <;> simp [QueryMetadata.default]

/-- C1: analyze("SELECT SUM(price) FROM orders") succeeds and returns
metadata with tables set exactly containing orders, functions and
aggregates sets exactly containing SUM, and an empty joins list.  The
parse tree of this input is modelled from the spec grammar. -/
theorem C1_sum_orders :
    analyze_sql (fun _ => (Except.ok c1_tree : Except Unit (List Pair)))
        "SELECT SUM(price) FROM orders" =
      Except.ok (analyze_pairs c1_tree QueryMetadata.default) ∧
    (analyze_pairs c1_tree QueryMetadata.default).tables = {"orders"} ∧
    (analyze_pairs c1_tree QueryMetadata.default).functions = {"SUM"} ∧
    (analyze_pairs c1_tree QueryMetadata.default).aggregates = {"SUM"} ∧
    (analyze_pairs c1_tree QueryMetadata.default).joins = [] := by
  refine ⟨by simp [analyze_sql], ?_⟩
  simp only [c1_tree, c1_select, exprOf, boolChain, arith, analyze_pairs,
    analyze_select_stmt, analyze_projection, projection_list_loop,
    analyze_projection_item, analyze_expression_for_metadata,
    analyze_from_item, analyze_table_factor, table_factor_loop,
    QueryMetadata.default, mapContains]
  decide

/-- C8: analyze("UPDATE users SET name = 'John', age = 25 WHERE id = 1")
succeeds; tables is exactly the set containing users, and columns contains
name, age and id.  The parse tree is modelled from the spec grammar. -/
theorem C8_update_users :
    analyze_sql (fun _ => (Except.ok c8_tree : Except Unit (List Pair)))
        "UPDATE users SET name = 'John', age = 25 WHERE id = 1" =
      Except.ok (analyze_pairs c8_tree QueryMetadata.default) ∧
    (analyze_pairs c8_tree QueryMetadata.default).tables = {"users"} ∧
    "name" ∈ (analyze_pairs c8_tree QueryMetadata.default).columns ∧
    "age" ∈ (analyze_pairs c8_tree QueryMetadata.default).columns ∧
    "id" ∈ (analyze_pairs c8_tree QueryMetadata.default).columns := by
  refine ⟨by simp [analyze_sql], ?_⟩
  simp only [c8_tree, c8_update, exprOf, boolChain, arith, analyze_pairs,
    analyze_update_stmt, analyze_set_list, analyze_set_item,
    analyze_where_clause, analyze_expression_for_metadata,
    QueryMetadata.default, mapContains]
  decide

/-- C3: during the expression walk a bare identifier not bound in the
aliases map is inserted into tables, and one that is bound leaves the
metadata untouched at that node. -/
theorem C3_identifier_heuristic (s : String) (cs rest : List Pair)
    (m : QueryMetadata) :
    (mapContains s m.aliases = false →
      s ∈ (analyze_expression_for_metadata
        (Pair.mk .identifier s cs :: rest) m).tables ∧
      analyze_expression_for_metadata (Pair.mk .identifier s cs :: rest) m =
        analyze_expression_for_metadata rest
          { m with tables := insert s m.tables }) ∧
    (mapContains s m.aliases = true →
      analyze_expression_for_metadata (Pair.mk .identifier s cs :: rest) m =
        analyze_expression_for_metadata rest m) := by
  constructor
  · intro hc
    have hstep : analyze_expression_for_metadata
        (Pair.mk .identifier s cs :: rest) m =
        analyze_expression_for_metadata rest
          { m with tables := insert s m.tables } := by
      simp [analyze_expression_for_metadata, hc]
    refine ⟨?_, hstep⟩
    rw [hstep]
    exact walk_tables_subset rest _ (Finset.mem_insert_self s m.tables)
  · intro hc
    simp [analyze_expression_for_metadata, hc]

theorem C3_witness :
    mapContains "users" QueryMetadata.default.aliases = false ∧
    "users" ∈ (analyze_expression_for_metadata
      [Pair.mk .identifier "users" []] QueryMetadata.default).tables :=
  ⟨rfl, ((C3_identifier_heuristic "users" [] []
    QueryMetadata.default).1 rfl).1⟩

/-- C4: analyze fails exactly when parse fails, with the parse error
returned unchanged, and on every successful parse the traversal runs to
completion and yields metadata. -/
theorem C4_error_propagation {ε : Type}
    (p : String → Except ε (List Pair)) (s : String) :
    (∀ e, analyze_sql p s = Except.error e ↔ p s = Except.error e) ∧
    (∀ t, p s = Except.ok t →
      analyze_sql p s = Except.ok (analyze_pairs t QueryMetadata.default)) := by
  constructor
  · intro e
    constructor
    · intro h
      cases hp : p s with
      | error e' =>
        simp only [analyze_sql, hp] at h
        simpa using h
      | ok t => simp [analyze_sql, hp] at h
    · intro h
      simp [analyze_sql, h]
  · intro t h
    simp [analyze_sql, h]

theorem C4_witness :
    analyze_sql (fun _ => (Except.ok [] : Except Unit (List Pair))) "" =
      Except.ok (analyze_pairs [] QueryMetadata.default) :=
  (C4_error_propagation (fun _ => (Except.ok [] : Except Unit (List Pair)))
    "").2 [] rfl

/-- C5: the expression walk does not descend into a function_call node:
its children are irrelevant, the step records exactly the text before the
opening parenthesis into functions (and aggregates when allow-listed), and
in particular the nested column of SUM(price) is never recorded. -/
theorem C5_function_call_opaque (s : String) (cs rest : List Pair)
    (m : QueryMetadata) :
    (∀ cs', analyze_expression_for_metadata
        (Pair.mk .function_call s cs :: rest) m =
      analyze_expression_for_metadata
        (Pair.mk .function_call s cs' :: rest) m) ∧
    analyze_expression_for_metadata (Pair.mk .function_call s cs :: rest) m =
      analyze_expression_for_metadata rest
        (if aggregateNames.contains (strToUpper (textBeforeParen s)) then
          { m with functions := insert (textBeforeParen s) m.functions,
                   aggregates := insert (textBeforeParen s) m.aggregates }
         else { m with functions := insert (textBeforeParen s) m.functions }) ∧
    (analyze_expression_for_metadata
        [Pair.mk .function_call "SUM(price)"
          [Pair.mk .column "price" [Pair.mk .identifier "price" []]]]
        QueryMetadata.default).columns = ∅ ∧
    (analyze_expression_for_metadata
        [Pair.mk .function_call "SUM(price)"
          [Pair.mk .column "price" [Pair.mk .identifier "price" []]]]
        QueryMetadata.default).functions = {"SUM"} := by
  refine ⟨?_, ?_, ?_, ?_⟩
  · intro cs'
    simp [analyze_expression_for_metadata]
  · simp [analyze_expression_for_metadata]
  · simp only [analyze_expression_for_metadata, QueryMetadata.default]
    decide
  · simp only [analyze_expression_for_metadata, QueryMetadata.default]
    decide

/-- C6: after every analyze run from the default accumulator, aggregates
is a subset of functions and every aggregate's uppercase form is in the
allow-list; entries keep their source casing, so differently cased calls
of one aggregate coexist as distinct entries. -/
theorem C6_aggregates (ps : List Pair) :
    ((analyze_pairs ps QueryMetadata.default).aggregates ⊆
      (analyze_pairs ps QueryMetadata.default).functions ∧
     ∀ a ∈ (analyze_pairs ps QueryMetadata.default).aggregates,
       strToUpper a ∈ aggregateNames) ∧
    (analyze_expression_for_metadata
        [Pair.mk .function_call "SUM(a)" [], Pair.mk .function_call "sum(b)" []]
        QueryMetadata.default).aggregates = {"SUM", "sum"} := by
  constructor
  · have h := inv_all.1 ps QueryMetadata.default inv_default
    exact ⟨h.1, h.2.1⟩
  · simp only [analyze_expression_for_metadata, QueryMetadata.default]
    decide

theorem C6_witness : strToUpper "SUM" ∈ aggregateNames :=
  (C6_aggregates w6_tree).1.2 "SUM" (by
    simp only [w6_tree, analyze_pairs, analyze_select_stmt,
      analyze_where_clause, analyze_expression_for_metadata,
      QueryMetadata.default]
    decide)

/-- C7: the aliases map keeps at most one entry per alias, and a later
table-factor or join-clause binding of the same alias overwrites any
earlier one. -/
theorem C7_alias_overwrite :
    (∀ ps, ((analyze_pairs ps QueryMetadata.default).aliases.map
      Prod.fst).Nodup) ∧
    (∀ (m : QueryMetadata) (tn al : String),
      mapLookup al (analyze_table_factor
        [Pair.mk .identifier tn [], Pair.mk .alias_identifier al []]
        m).aliases = some tn) ∧
    (∀ (m : QueryMetadata) (tn al sT sE : String),
      mapLookup al (analyze_join_clause
        (join_clause_pairs [] "JOIN" sT "ON" sE
          [Pair.mk .identifier tn [], Pair.mk .alias_identifier al []] [])
        m).aliases = some tn) := by
  refine ⟨?_, ?_, ?_⟩
  · intro ps
    exact (inv_all.1 ps QueryMetadata.default inv_default).2.2
  · intro m tn al
    simp [analyze_table_factor, table_factor_loop, mapLookup_mapInsert_self]
  · intro m tn al sT sE
    simp [analyze_join_clause, join_clause_pairs, join_clause_loop,
      table_factor_loop, analyze_expression_for_metadata,
      mapLookup_mapInsert_self]

/-- C9: a group_by, having, order_by or limit subtree of a SELECT falls to
the generic recursion, which performs no insertions, so the accumulator is
left unchanged by that clause. -/
theorem C9_frame (r : Rule) (s : String) (inner rest : List Pair)
    (m : QueryMetadata)
    (hr : r = .group_by_clause ∨ r = .having_clause ∨
      r = .order_by_clause ∨ r = .limit_clause)
    (hfree : no_stmt_in inner = true) :
    analyze_select_stmt (Pair.mk r s inner :: rest) m =
      analyze_select_stmt rest m := by
  have hstep := analyze_pairs_of_no_stmt inner m hfree
  rcases hr with rfl | rfl | rfl | rfl <;>
    simp [analyze_select_stmt, hstep]

theorem C9_witness :
    analyze_select_stmt
      [Pair.mk .having_clause "HAVING COUNT(id) > 1"
        [Pair.mk .expr "COUNT(id) > 1" [Pair.mk .function_call "COUNT(id)" []]]]
      QueryMetadata.default =
    analyze_select_stmt [] QueryMetadata.default :=
  C9_frame .having_clause "HAVING COUNT(id) > 1"
    [Pair.mk .expr "COUNT(id) > 1" [Pair.mk .function_call "COUNT(id)" []]]
    [] QueryMetadata.default (Or.inr (Or.inl rfl))
    (by simp [no_stmt_in])

/-- C10: whenever analyze succeeds, decoding the serialized form of its
metadata reproduces the metadata (set-valued fields are modelled as finite
sets, so equality is already independent of member order). -/
theorem C10_roundtrip {ε : Type} (p : String → Except ε (List Pair))
    (q : String) (md : QueryMetadata)
    (_h : analyze_sql p q = Except.ok md) :
    decodeMetadata (encodeMetadata md) = some md :=
  decode_encode md

theorem C10_witness :
    decodeMetadata (encodeMetadata QueryMetadata.default) =
      some QueryMetadata.default :=
  C10_roundtrip (fun _ => (Except.ok [] : Except Unit (List Pair))) ""
    QueryMetadata.default (by simp [analyze_sql, analyze_pairs])

theorem C2_witness :
    (analyze_join_clause
      (join_clause_pairs [] "JOIN" "posts p" "ON" "u.id = p.user_id"
        [Pair.mk .identifier "posts" [], Pair.mk .alias_identifier "p" []] [])
      QueryMetadata.default).joins =
    QueryMetadata.default.joins ++
      [⟨(([] : List Pair)).head?.map Pair.text, "posts",
        (table_factor_loop
          [Pair.mk .identifier "posts" [], Pair.mk .alias_identifier "p" []]
          none none QueryMetadata.default).2.1, "u.id = p.user_id"⟩] :=
  ((C2_join_clause [] "JOIN" "ON" "u.id = p.user_id" "posts p"
    [Pair.mk .identifier "posts" [], Pair.mk .alias_identifier "p" []] []
    QueryMetadata.default (Or.inl rfl)
    (by
      intro p hp
      simp only [List.mem_cons, List.not_mem_nil, or_false] at hp
      rcases hp with rfl | rfl
      · exact Or.inl rfl
      · exact Or.inr (Or.inl rfl))
    (by
      intro p hp hid
      simp only [List.mem_cons, List.not_mem_nil, or_false] at hp
      rcases hp with rfl | rfl
      · simp [Pair.text]
      · simp [Pair.rule] at hid)
    (by simp [QueryMetadata.default])).1 "posts"
    (by simp [table_factor_loop])).1
